import Mathlib

/-!
Verification of the pixel-buffer library (Picture, Comparator, Kernel).

The TypeScript sources are shallowly embedded:
  * a `Uint8ClampedArray` becomes a `List Nat` of byte values;
  * JS numbers used in kernel weights, alpha normalisation and comparison
    scores become `ℚ` (all the claims proved here concern values where the
    double arithmetic of the source is exact);
  * writing a JS number into a `Uint8ClampedArray` clamps it to `[0, 255]`
    and rounds to the nearest integer with ties to even
    (ECMAScript `ToUint8Clamp`), embedded as `clampByte`;
  * code that throws becomes `Except String` with the message of the source.
-/

/-- Conversion `ToUint8Clamp` step 2: round to nearest, ties to even. -/
def roundTiesEven (q : ℚ) : ℤ :=
  if q - ⌊q⌋ = 1/2 then (if ⌊q⌋ % 2 = 0 then ⌊q⌋ else ⌊q⌋ + 1) else round q

/-- Storing a JS number into a `Uint8ClampedArray` cell: clamp to `[0, 255]`,
then round to nearest with ties to even (ECMAScript `ToUint8Clamp`). -/
def clampByte (q : ℚ) : ℕ :=
  if q ≤ 0 then 0 else if 255 ≤ q then 255 else (roundTiesEven q).toNat

/-- Embeds `Picture` (file `Picture.ts`): `width`, `height` and the RGBA byte
array `data`.  The constructor check lives in `Picture.new`. -/
structure Picture where
  width : ℕ
  height : ℕ
  data : List ℕ
deriving DecidableEq, Repr

/-- Embeds the RGB-to-RGBA normalisation loop of the `Picture` constructor
(`Picture.ts`): every byte is pushed, and after each index `i` with
`i % 3 = 2` the default alpha `255` is pushed.  The loop visits the bytes
three at a time, so it is rendered as recursion on leading triples; a leftover
of fewer than three bytes is pushed without an alpha, as in the source. -/
def rgbToRgba : List ℕ → List ℕ
  | r :: g :: b :: rest => r :: g :: b :: 255 :: rgbToRgba rest
  | rest => rest

/-- Embeds the `Picture` constructor (`Picture.ts`, `constructor`): data of
length `width*height*4` is stored unchanged, length `width*height*3` is
normalised by `rgbToRgba`, anything else throws. -/
def Picture.new (width height : ℕ) (data : List ℕ) : Except String Picture :=
  if data.length = width * height * 4 then
    .ok ⟨width, height, data⟩
  else if data.length = width * height * 3 then
    .ok ⟨width, height, rgbToRgba data⟩
  else
    .error "Image data length does not match width*height*channels dimensions."

/-- Reads the four bytes of pixel `p` from a flat RGBA byte list, as the
source's `data.subarray(p*CHANNELS, p*CHANNELS+CHANNELS)` does (all reads in
the repository are in bounds; the default `0` is never reached there). -/
def pixelBytes (d : List ℕ) (p : ℕ) : List ℕ :=
  [d.getD (p * 4) 0, d.getD (p * 4 + 1) 0, d.getD (p * 4 + 2) 0,
   d.getD (p * 4 + 3) 0]

/-- Value of one window cell of `Picture.findCoordsToConvolveKernel`
(`Picture.ts`), for kernel row `j` and kernel column `i`: the source checks
the row bound first (a fully out-of-bounds row is short-circuited to
`undefined` for every cell, which coincides with this per-cell conditional),
then the column bound, and otherwise yields the linear pixel index.
Coordinates are integers because the window may extend below zero. -/
def kernelCell (imageWidth imageHeight : ℕ) (x y : ℤ)
    (kernelWidth kernerHeight j i : ℕ) : Option ℤ :=
  let distanceToCenterY : ℤ := (j : ℤ) - (kernerHeight / 2 : ℕ)
  let distanceToCenterX : ℤ := (i : ℤ) - (kernelWidth / 2 : ℕ)
  if distanceToCenterY + y < 0 ∨ distanceToCenterY + y ≥ imageHeight then
    none
  else if distanceToCenterX + x < 0 ∨ distanceToCenterX + x ≥ imageWidth then
    none
  else
    some ((distanceToCenterX + x) + imageWidth * (distanceToCenterY + y))

/-- Embeds `Picture.findCoordsToConvolveKernel` (`Picture.ts`).  The source
fills `answer` back to front (`answer[--kernelId] = ...`) while scanning
kernel rows `j = 0..kernerHeight-1` and cells `i = 0..kernelWidth-1`, so the
produced array is the reverse of the row-major sequence of cell values. -/
def findCoordsToConvolveKernel (imageWidth imageHeight : ℕ) (x y : ℤ)
    (kernelWidth kernerHeight : ℕ) : List (Option ℤ) :=
  ((List.range kernerHeight).flatMap fun j =>
    (List.range kernelWidth).map
      (kernelCell imageWidth imageHeight x y kernelWidth kernerHeight j)).reverse

/-- Embeds `Picture.convolve` (`Picture.ts`).  The output array starts as a
copy of the source data; pixels are visited row-major, and when `keepEdges` is
set and some window cell is absent the pixel is skipped, leaving the source
pixel in place (rendered here by emitting `pixelBytes` of the source).  The
indexed `reduce` over `coords` with `flattenKernel[i]` is rendered as a fold
over `coords.zip flattenKernel` (the two lists have equal length for the
rectangular kernels the library ships).  Absent cells contribute nothing.
The computed pixel is stored through the clamped-array conversion with alpha
forced to 255. -/
def convStep (d : List ℕ) (acc : ℚ × ℚ × ℚ) (cw : Option ℤ × ℚ) : ℚ × ℚ × ℚ :=
  match cw.1 with
  | none => acc
  | some cur =>
    (acc.1 + (d.getD (cur.toNat * 4 + 0) 0 : ℚ) * cw.2,
     acc.2.1 + (d.getD (cur.toNat * 4 + 1) 0 : ℚ) * cw.2,
     acc.2.2 + (d.getD (cur.toNat * 4 + 2) 0 : ℚ) * cw.2)

/-- Body of the pixel loop of `Picture.convolve` (`Picture.ts`) for the pixel
at `(x, y)`: when `keepEdges` is set and some window cell is absent the pixel
is skipped, leaving the source pixel in place (the output array starts as a
copy of the source, so skipping emits `pixelBytes` of the source); otherwise
the indexed `reduce` over `coords` with `flattenKernel[i]` — rendered as a
fold of `convStep` over `coords.zip flattenKernel`, the two lists having equal
length for rectangular kernels — accumulates the weighted RGB sums, and the
pixel is stored through the clamped-array conversion with alpha forced
to 255. -/
def convPixel (image : Picture) (kernel : List (List ℚ)) (keepEdges : Bool)
    (y x : ℕ) : List ℕ :=
  let kernelWidth := (kernel.headD []).length
  let kernerHeight := kernel.length
  let flattenKernel := kernel.flatten
  let coords := findCoordsToConvolveKernel image.width image.height
    x y kernelWidth kernerHeight
  if keepEdges && coords.any (fun c => c.isNone) then
    pixelBytes image.data (y * image.width + x)
  else
    let summedPixel := (coords.zip flattenKernel).foldl
      (convStep image.data) ((0 : ℚ), (0 : ℚ), (0 : ℚ))
    [clampByte summedPixel.1, clampByte summedPixel.2.1,
     clampByte summedPixel.2.2, 255]

/-- Embeds `Picture.convolve` (`Picture.ts`): even kernel dimensions throw
before any pixel is processed, otherwise every pixel is visited row-major and
replaced by `convPixel`. -/
def convolve (image : Picture) (kernel : List (List ℚ)) (keepEdges : Bool) :
    Except String Picture :=
  if (kernel.headD []).length % 2 = 0 then
    .error "Kernel is expected to have odd length"
  else if kernel.length % 2 = 0 then
    .error "Kernel is expected to have odd height"
  else
    .ok ⟨image.width, image.height,
      (List.range image.height).flatMap fun y =>
        (List.range image.width).flatMap fun x =>
          convPixel image kernel keepEdges y x⟩

/-- Embeds `Kernel.identity` (`Kernel.ts`). -/
def Kernel.identity : List (List ℚ) := [[0, 0, 0], [0, 1, 0], [0, 0, 0]]

/-- Embeds `Picture.resize` (`Picture.ts`).  The output array starts zeroed;
destination pixels are visited row-major while `(i, j)` ranges over
`[offsetY, offsetY+height) × [offsetX, offsetX+width)`, and a source pixel is
copied when it is in bounds.  Each destination pixel is written at most once,
so the loop is rendered per destination pixel. -/
def resize (picture : Picture) (offsetX offsetY : ℤ) (width height : ℕ) :
    Picture :=
  ⟨width, height,
    (List.range height).flatMap fun di =>
      (List.range width).flatMap fun dj =>
        let i : ℤ := offsetY + di
        let j : ℤ := offsetX + dj
        if 0 ≤ i ∧ i < picture.height ∧ 0 ≤ j ∧ j < picture.width then
          pixelBytes picture.data (i.toNat * picture.width + j.toNat)
        else [0, 0, 0, 0]⟩

/-- Embeds the body of the pixel loop of `Picture.merge2` (`Picture.ts`):
alpha-over compositing of foreground pixel `pixelFromB` onto background pixel
`pixelFromA`, with both alphas normalised to `[0, 1]`, the both-zero case
skipped (the destination keeps the background pixel), and the result stored
through the clamped-array conversion. -/
def mergePixel (pixelFromA pixelFromB : List ℕ) : List ℕ :=
  let alphaA : ℚ := (pixelFromA.getD 3 0 : ℚ) / 255
  let alphaB : ℚ := (pixelFromB.getD 3 0 : ℚ) / 255
  if alphaA = 0 ∧ alphaB = 0 then pixelFromA
  else
    let newAlpha := alphaA * (1 - alphaB) + alphaB
    [clampByte (((pixelFromA.getD 0 0 : ℚ) * alphaA * (1 - alphaB) +
        (pixelFromB.getD 0 0 : ℚ) * alphaB) / newAlpha),
     clampByte (((pixelFromA.getD 1 0 : ℚ) * alphaA * (1 - alphaB) +
        (pixelFromB.getD 1 0 : ℚ) * alphaB) / newAlpha),
     clampByte (((pixelFromA.getD 2 0 : ℚ) * alphaA * (1 - alphaB) +
        (pixelFromB.getD 2 0 : ℚ) * alphaB) / newAlpha),
     clampByte (newAlpha * 255)]

/-- Embeds `Picture.merge2` (`Picture.ts`).  The source copies `a.data`, then
for every foreground pixel `(x, y)` of `b` whose destination
`(j, i) = (offsetX + x, offsetY + y)` is inside `a` overwrites that unique
destination pixel with the composite of the original `a` and `b` pixels (reads
come from the original buffers, never from the copy).  Since distinct
foreground pixels hit distinct destinations, the loop is rendered per
destination pixel: a destination covered by the foreground rectangle holds the
composite, any other keeps the background pixel. -/
def merge2 (a b : Picture) (offsetX offsetY : ℤ) : Picture :=
  ⟨a.width, a.height,
    (List.range a.height).flatMap fun i =>
      (List.range a.width).flatMap fun j =>
        if offsetY ≤ (i : ℤ) ∧ (i : ℤ) < offsetY + b.height ∧
            offsetX ≤ (j : ℤ) ∧ (j : ℤ) < offsetX + b.width then
          mergePixel (pixelBytes a.data (a.width * i + j))
            (pixelBytes b.data
              (b.width * ((i : ℤ) - offsetY).toNat + ((j : ℤ) - offsetX).toNat))
        else pixelBytes a.data (a.width * i + j)⟩

/-- Embeds `AlphaOption` of `Comparator.ts` (the version under `src/lib`,
whose fourth policy is named `compare`). -/
inductive AlphaOption1 where
  | ignore | multiply | ignoreFirst | compare
deriving DecidableEq, Repr

/-- Sum of absolute RGB channel differences, the base L1 distance both
comparator versions compute for the first three channels (the library always
passes at least three channels; a missing channel reads as 0 here). -/
def ignoreScore (a b : List ℚ) : ℚ :=
  |a.getD 0 0 - b.getD 0 0| + |a.getD 1 0 - b.getD 1 0| + |a.getD 2 0 - b.getD 2 0|

/-- Embeds `Comparator.comparePixels` of `src/lib/Comparator.ts`: `ignore`
sums absolute RGB differences; `compare` adds the absolute alpha difference
(missing alpha defaults to 255); `ignoreFirst` weights only the second
pixel's RGB by its alpha; `multiply` weights both.  The recursive self-call
with the `ignore` option in the source is the base sum `ignoreScore`. -/
def Comparator.comparePixels (a b : List ℚ) : AlphaOption1 → ℚ
  | .ignore => ignoreScore a b
  | .compare => ignoreScore a b + |a.getD 3 255 - b.getD 3 255|
  | .ignoreFirst =>
    let bTransparency := b.getD 3 255 / 255
    |a.getD 0 0 - b.getD 0 0 * bTransparency| +
      |a.getD 1 0 - b.getD 1 0 * bTransparency| +
      |a.getD 2 0 - b.getD 2 0 * bTransparency|
  | .multiply =>
    let bTransparency := b.getD 3 255 / 255
    let aTransparency := a.getD 3 255 / 255
    |a.getD 0 0 * aTransparency - b.getD 0 0 * bTransparency| +
      |a.getD 1 0 * aTransparency - b.getD 1 0 * bTransparency| +
      |a.getD 2 0 * aTransparency - b.getD 2 0 * bTransparency|

/-- Embeds `AlphaOption` of the sibling `Comparator` implementation (the
version whose fourth policy is named `subtract`). -/
inductive AlphaOption2 where
  | ignore | multiply | ignoreFirst | subtract
deriving DecidableEq, Repr

/-- Embeds `Comparator.comparePixels` of the sibling `Comparator`
implementation: `ignore` and `subtract` are as in the other version, while
`ignoreFirst` and `multiply` multiply the whole L1 sum by
`aTransparency * bTransparency`, with `aTransparency = 1` for
`ignoreFirst`. -/
def Comparator2.comparePixels (a b : List ℚ) : AlphaOption2 → ℚ
  | .ignore => ignoreScore a b
  | .subtract => ignoreScore a b + |a.getD 3 255 - b.getD 3 255|
  | alpha =>
    let aTransparency := if alpha = .ignoreFirst then 1 else a.getD 3 255 / 255
    let bTransparency := b.getD 3 255 / 255
    ignoreScore a b * aTransparency * bTransparency

/-- Embeds `Comparator.compareMultiplePixels` of the sibling `Comparator`
implementation on already-escaped pixel lists: a length mismatch throws, an
absent pixel on either side contributes `undefinedScore`, any other pair is
scored by `comparePixels`. -/
def Comparator2.compareMultiplePixels (a b : List (Option (List ℚ)))
    (alpha : AlphaOption2) (undefinedScore : ℚ) : Except String ℚ :=
  if a.length ≠ b.length then .error "Lengths of arrays must match"
  else
    .ok ((a.zip b).foldl
      (fun answer pq =>
        match pq.1, pq.2 with
        | some p, some q => answer + Comparator2.comparePixels p q alpha
        | _, _ => answer + undefinedScore)
      0)

/-- Embeds the helper `groupArr(data, 4)` used by `compareMultiplePixels` to
view a flat clamped array as a list of 4-channel pixels (the last group may be
short when the length is not a multiple of 4). -/
def groupArr4 : List ℕ → List (List ℕ)
  | [] => []
  | a :: rest => (a :: rest.take 3) :: groupArr4 (rest.drop 3)
termination_by l => l.length
decreasing_by simp; omega

/-- Tile gather of `Picture.createBlockSimilarityMask` (`Picture.ts`): the
`channels` list for the tile whose top-left main-image coordinate is
`(x, y)` — one entry per tile cell, `none` when the cell falls outside the
main image (a fully out-of-bounds row contributes `block.width` such
entries). -/
def tileChannels (main : Picture) (x y : ℤ) (bw bh : ℕ) :
    List (Option (List ℚ)) :=
  (List.range bh).flatMap fun di =>
    let i := y + (di : ℤ)
    if i < 0 ∨ i ≥ main.height then List.replicate bw none
    else
      (List.range bw).map fun (dj : ℕ) =>
        let j := x + (dj : ℤ)
        if j < 0 ∨ j ≥ main.width then none
        else
          some ((pixelBytes main.data (j + i * main.width).toNat).map
            (Nat.cast : ℕ → ℚ))

/-- Tile gather of `Picture.createBlockSimilarityMask` (`Picture.ts`): the
`pixelIds` list for the tile at `(x, y)` — a fully out-of-bounds row
contributes a single `none`, an out-of-bounds cell of an in-bounds row one
`none`, and an in-bounds cell its linear pixel index. -/
def tilePixelIds (main : Picture) (x y : ℤ) (bw bh : ℕ) : List (Option ℕ) :=
  (List.range bh).flatMap fun di =>
    let i := y + (di : ℤ)
    if i < 0 ∨ i ≥ main.height then [none]
    else
      (List.range bw).map fun (dj : ℕ) =>
        let j := x + (dj : ℤ)
        if j < 0 ∨ j ≥ main.width then none
        else some (j + i * main.width).toNat

/-- Writes a run of bytes into a flat byte list starting at `off`, as the
source's `data.set(bytes, off)` does. -/
def writeBytes : List ℕ → ℕ → List ℕ → List ℕ
  | d, _, [] => d
  | d, off, b :: rest => writeBytes (d.set off b) (off + 1) rest

/-- Tile starting coordinates of the block-similarity scan: the positions
`start`, `start + step`, … that are below `limit` (the source's
`for (v = start; v < limit; v += step)` loop counter values).  The count is
the exact number of loop iterations for `step > 0`; the claims assume positive
block dimensions, under which the source loop also terminates. -/
def tileStarts (start : ℤ) (step : ℕ) (limit : ℕ) : List ℤ :=
  if step = 0 then []
  else (List.range ((((limit : ℤ) - start).toNat + step - 1) / step)).map
    (fun (m : ℕ) => start + (m : ℤ) * (step : ℤ))

/-- Single pass of `Picture.createBlockSimilarityMask` (`Picture.ts`) after
any offset folding: a zeroed buffer of the main image's byte length is
scanned tile by tile; each tile's gathered channels are compared against the
block's pixels with the `multiply` policy, the score is normalised, and
`[0, 0, 0, score]` is written at every in-bounds pixel of the tile.  The
comparator's length-mismatch throw propagates through `Except`. -/
def blockSimilarityScan (main block : Picture) (offsetX offsetY : ℤ) :
    Except String Picture := do
  let bw := block.width
  let bh := block.height
  let totalPixelsInBlock : ℚ := (bw * bh : ℕ)
  let totalChannelsInBlock : ℚ := totalPixelsInBlock / 3
  let startingX := (offsetX.tmod bw - bw).tmod bw
  let startingY := (offsetY.tmod bh - bh).tmod bh
  let blockPixels := (groupArr4 block.data).map
    (fun g => some (g.map (Nat.cast : ℕ → ℚ)))
  let data ← (tileStarts startingY bh main.height).foldlM
    (fun d y =>
      (tileStarts startingX bw main.width).foldlM
        (fun d x => do
          let channels := tileChannels main x y bw bh
          let pixelIds := tilePixelIds main x y bw bh
          let raw ← Comparator2.compareMultiplePixels channels blockPixels
            .multiply (255 * 3)
          let score := raw / totalChannelsInBlock / (bw : ℚ) / (bh : ℚ)
          pure (pixelIds.foldl
            (fun d p =>
              match p with
              | none => d
              | some p => writeBytes d (p * 4) [0, 0, 0, clampByte score])
            d))
        d)
    (List.replicate main.data.length 0)
  pure ⟨main.width, main.height, data⟩

/-- Embeds `Picture.createBlockSimilarityMask` (`Picture.ts`) with explicit
fuel for its self-call: when an offset lies outside `[0, block.width]` or
`[0, block.height]` the source folds it into range with the negative-safe
modulo and recurses; `none` means the fuel ran out before the recursion
bottomed out (the claims show fuel 2 always suffices).  JS `%` on integers is
truncating remainder, embedded as `Int.tmod`. -/
def createBlockSimilarityMaskFuel :
    ℕ → Picture → Picture → ℤ → ℤ → Option (Except String Picture)
  | 0, _, _, _, _ => none
  | fuel + 1, main, block, offsetX, offsetY =>
    if offsetX < 0 ∨ offsetX > (block.width : ℤ) ∨ offsetY < 0 ∨
        offsetY > (block.height : ℤ) then
      let realXoffset := ((block.width : ℤ) + offsetX.tmod block.width).tmod block.width
      let realYoffset := ((block.height : ℤ) + offsetY.tmod block.height).tmod block.height
      createBlockSimilarityMaskFuel fuel main block realXoffset realYoffset
    else some (blockSimilarityScan main block offsetX offsetY)

theorem rgbToRgba_spec (n : ℕ) :
    ∀ d : List ℕ, d.length = 3 * n →
      (rgbToRgba d).length = 4 * n ∧
      ∀ i : ℕ, i < n → (rgbToRgba d)[4 * i + 3]? = some 255 := by
  induction n with
  | zero =>
    intro d hd
    have : d = [] := List.length_eq_zero.mp (by omega)
    subst this
    simp [rgbToRgba]
  | succ n ih =>
    intro d hd
    match d with
    | [] => simp at hd
    | [r] => simp at hd; omega
    | [r, g] => simp at hd; omega
    | r :: g :: b :: rest =>
      have hrest : rest.length = 3 * n := by
        simp [List.length_cons] at hd; omega
      obtain ⟨hlen, halpha⟩ := ih rest hrest
      constructor
      · simp [rgbToRgba, hlen]; omega
      · intro i hi
        cases i with
        | zero => simp [rgbToRgba]
        | succ i =>
          have h4 : 4 * (i + 1) + 3 = (4 * i + 3) + 4 := by omega
          rw [h4]
          show (r :: g :: b :: 255 :: rgbToRgba rest)[(4 * i + 3) + 4]? = some 255
          simpa using halpha i (by omega)

theorem length_flatMap_range {α : Type} (f : ℕ → List α) (n L : ℕ)
    (hf : ∀ j, j < n → (f j).length = L) :
    ((List.range n).flatMap f).length = n * L := by
  induction n with
  | zero => simp
  | succ n ih =>
    rw [List.range_succ, List.flatMap_append, List.length_append,
      ih (fun j hj => hf j (by omega))]
    simp [hf n (by omega)]
    ring

theorem getElem?_flatMap_range {α : Type} (f : ℕ → List α) (n L k c : ℕ)
    (hf : ∀ j, j < n → (f j).length = L) (hk : k < n) (hc : c < L) :
    ((List.range n).flatMap f)[k * L + c]? = (f k)[c]? := by
  induction n with
  | zero => omega
  | succ n ih =>
    have hlen : ((List.range n).flatMap f).length = n * L :=
      length_flatMap_range f n L (fun j hj => hf j (by omega))
    rw [List.range_succ, List.flatMap_append, List.getElem?_append]
    by_cases hkn : k < n
    · have hlt : k * L + c < ((List.range n).flatMap f).length := by
        rw [hlen]
        calc k * L + c < k * L + L := by omega
          _ = (k + 1) * L := by ring
          _ ≤ n * L := Nat.mul_le_mul_right L (by omega)
      rw [if_pos hlt]
      exact ih (fun j hj => hf j (by omega)) hkn
    · have hkeq : k = n := by omega
      subst hkeq
      have hge : ¬ k * L + c < ((List.range k).flatMap f).length := by
        rw [hlen]; omega
      rw [if_neg hge, hlen]
      have hsub : k * L + c - k * L = c := by omega
      rw [hsub]
      simp

theorem findCoords_length (W H : ℕ) (x y : ℤ) (kw kh : ℕ) :
    (findCoordsToConvolveKernel W H x y kw kh).length = kw * kh := by
  unfold findCoordsToConvolveKernel
  rw [List.length_reverse,
    length_flatMap_range _ kh kw (fun j _ => by simp)]
  ring

theorem findCoords_getElem (W H : ℕ) (x y : ℤ) (kw kh j i : ℕ)
    (hj : j < kh) (hi : i < kw) :
    (findCoordsToConvolveKernel W H x y kw kh)[kw * kh - 1 - (j * kw + i)]? =
      some (kernelCell W H x y kw kh j i) := by
  have hji0 : j * kw + i < kh * kw := by
    calc j * kw + i < j * kw + kw := by omega
      _ = (j + 1) * kw := by ring
      _ ≤ kh * kw := Nat.mul_le_mul_right kw (by omega)
  have hji : j * kw + i < kw * kh := by
    rw [Nat.mul_comm kw kh]
    exact hji0
  unfold findCoordsToConvolveKernel
  have hlen : ((List.range kh).flatMap fun j =>
      (List.range kw).map (kernelCell W H x y kw kh j)).length = kh * kw :=
    length_flatMap_range _ kh kw (fun j _ => by simp)
  rw [List.getElem?_reverse (by rw [hlen, Nat.mul_comm kh kw]; omega)]
  rw [hlen]
  have hidx : kh * kw - 1 - (kw * kh - 1 - (j * kw + i)) = j * kw + i := by
    rw [Nat.mul_comm kh kw]
    omega
  rw [hidx]
  rw [getElem?_flatMap_range _ kh kw j i (fun j _ => by simp) hj hi]
  rw [List.getElem?_map, List.getElem?_range hi]
  rfl

/-- Claim C2 — KernelIndexMapper contract: for odd kernel sizes
`(2a+1, 2b+1)` the result has length exactly `(2a+1)*(2b+1)`; the entry paired
with window offset `(i - a, j - b)` (stored back to front by the source, hence
at position `(2a+1)*(2b+1) - 1 - (j*(2a+1) + i)`) is the linear pixel index
`col + W*row` of the window cell when that cell lies inside `[0,W)×[0,H)` and
the absent sentinel otherwise; and for a 3×3 image with a 3×3 kernel centered
at corner `(0,0)` exactly 4 of the 9 entries are present and 5 absent. -/
theorem kernel_index_mapper_contract (W H : ℕ) (x y : ℤ) (a b j i : ℕ)
    (hj : j < 2 * b + 1) (hi : i < 2 * a + 1) :
    (findCoordsToConvolveKernel W H x y (2 * a + 1) (2 * b + 1)).length =
        (2 * a + 1) * (2 * b + 1) ∧
    (findCoordsToConvolveKernel W H x y (2 * a + 1)
        (2 * b + 1))[(2 * a + 1) * (2 * b + 1) - 1 - (j * (2 * a + 1) + i)]? =
      some (if 0 ≤ y + ((j : ℤ) - b) ∧ y + ((j : ℤ) - b) < H ∧
               0 ≤ x + ((i : ℤ) - a) ∧ x + ((i : ℤ) - a) < W
            then some ((x + ((i : ℤ) - a)) + W * (y + ((j : ℤ) - b)))
            else none) ∧
    ((findCoordsToConvolveKernel 3 3 0 0 3 3).countP (fun e => e.isSome) = 4 ∧
     (findCoordsToConvolveKernel 3 3 0 0 3 3).countP (fun e => e.isNone) = 5) := by
  refine ⟨findCoords_length W H x y _ _, ?_, by decide, by decide⟩
  rw [findCoords_getElem W H x y _ _ j i hj hi]
  unfold kernelCell
  have ha : (2 * a + 1) / 2 = a := by omega
  have hb : (2 * b + 1) / 2 = b := by omega
  rw [ha, hb]
  simp only
  by_cases hA : ((j : ℤ) - b) + y < 0 ∨ ((j : ℤ) - b) + y ≥ H
  · rw [if_pos hA, if_neg (by omega)]
  · rw [if_neg hA]
    by_cases hB : ((i : ℤ) - a) + x < 0 ∨ ((i : ℤ) - a) + x ≥ W
    · rw [if_pos hB, if_neg (by omega)]
    · rw [if_neg hB, if_pos (by omega)]
      congr 2
      ring

/-- Witness for C2 at `W = H = 3`, `(x, y) = (0, 0)`, a 3×3 kernel and window
cell `(j, i) = (1, 1)` (the center, which is present with index 0). -/
theorem kernel_index_mapper_contract_witness :
    (findCoordsToConvolveKernel 3 3 0 0 (2 * 1 + 1) (2 * 1 + 1)).length =
        (2 * 1 + 1) * (2 * 1 + 1) ∧
    (findCoordsToConvolveKernel 3 3 0 0 (2 * 1 + 1)
        (2 * 1 + 1))[(2 * 1 + 1) * (2 * 1 + 1) - 1 - (1 * (2 * 1 + 1) + 1)]? =
      some (if 0 ≤ (0 : ℤ) + ((1 : ℕ) - (1 : ℕ) : ℤ) ∧
               (0 : ℤ) + ((1 : ℕ) - (1 : ℕ) : ℤ) < (3 : ℕ) ∧
               0 ≤ (0 : ℤ) + ((1 : ℕ) - (1 : ℕ) : ℤ) ∧
               (0 : ℤ) + ((1 : ℕ) - (1 : ℕ) : ℤ) < (3 : ℕ)
            then some (((0 : ℤ) + ((1 : ℕ) - (1 : ℕ) : ℤ)) +
              (3 : ℕ) * ((0 : ℤ) + ((1 : ℕ) - (1 : ℕ) : ℤ)))
            else none) ∧
    ((findCoordsToConvolveKernel 3 3 0 0 3 3).countP (fun e => e.isSome) = 4 ∧
     (findCoordsToConvolveKernel 3 3 0 0 3 3).countP (fun e => e.isNone) = 5) :=
  kernel_index_mapper_contract 3 3 0 0 1 1 1 1 (by decide) (by decide)

/-- Claim C10 — mapper indices are in bounds: every present entry of
`findCoordsToConvolveKernel` is a linear pixel index inside `[0, W*H)`, so the
convolution loop's channel reads at `index*4 + channel` stay inside a data
array of length `W*H*4`. -/
theorem mapper_indices_in_bounds (W H : ℕ) (x y : ℤ) (kw kh : ℕ)
    (hW : 0 < W) (_hH : 0 < H) (_hx : 0 ≤ x) (_hxW : x < W) (_hy : 0 ≤ y)
    (_hyH : y < H) :
    ∀ idx : ℤ, some idx ∈ findCoordsToConvolveKernel W H x y kw kh →
      0 ≤ idx ∧ idx < (W * H : ℕ) ∧
      ∀ c : ℕ, c < 4 → idx.toNat * 4 + c < W * H * 4 := by
  intro idx hmem
  unfold findCoordsToConvolveKernel at hmem
  rw [List.mem_reverse, List.mem_flatMap] at hmem
  obtain ⟨j, hj, hmem⟩ := hmem
  rw [List.mem_map] at hmem
  obtain ⟨i, hi, hcell⟩ := hmem
  unfold kernelCell at hcell
  simp only at hcell
  by_cases hrow : ((j : ℤ) - (kh / 2 : ℕ)) + y < 0 ∨
      ((j : ℤ) - (kh / 2 : ℕ)) + y ≥ H
  · rw [if_pos hrow] at hcell; exact absurd hcell (by simp)
  · rw [if_neg hrow] at hcell
    by_cases hcol : ((i : ℤ) - (kw / 2 : ℕ)) + x < 0 ∨
        ((i : ℤ) - (kw / 2 : ℕ)) + x ≥ W
    · rw [if_pos hcol] at hcell; exact absurd hcell (by simp)
    · rw [if_neg hcol] at hcell
      rw [Option.some_inj] at hcell
      push_neg at hrow hcol
      set col : ℤ := ((i : ℤ) - (kw / 2 : ℕ)) + x with hcoldef
      set row : ℤ := ((j : ℤ) - (kh / 2 : ℕ)) + y with hrowdef
      have h0 : 0 ≤ col := hcol.1
      have h1 : col < W := hcol.2
      have h2 : 0 ≤ row := hrow.1
      have h3 : row < H := hrow.2
      have hidx : idx = col + W * row := hcell.symm
      have hub : idx < (W * H : ℕ) := by
        rw [hidx]
        have hrow1 : row ≤ (H : ℤ) - 1 := by omega
        have : (W : ℤ) * row ≤ W * ((H : ℤ) - 1) :=
          mul_le_mul_of_nonneg_left hrow1 (by positivity)
        have hcast : ((W * H : ℕ) : ℤ) = (W : ℤ) * H := by push_cast; ring
        rw [hcast]
        nlinarith
      have hlb : 0 ≤ idx := by rw [hidx]; positivity
      refine ⟨hlb, hub, fun c hc => ?_⟩
      have : idx.toNat < W * H := by omega
      omega
/-- Claim C1 — Buffer construction normalization: data of length `W*H*4` is
stored unchanged; data of length `W*H*3` yields a buffer whose data has length
`W*H*4` with every fourth byte (each pixel's alpha) equal to 255; any other
length fails with the dimension-mismatch error. -/
theorem buffer_construction_normalization (w h : ℕ) (d : List ℕ) :
    (d.length = w * h * 4 → Picture.new w h d = .ok ⟨w, h, d⟩) ∧
    (d.length = w * h * 3 →
      ∃ p : Picture, Picture.new w h d = .ok p ∧ p.width = w ∧ p.height = h ∧
        p.data.length = w * h * 4 ∧
        ∀ i : ℕ, i < w * h → p.data[4 * i + 3]? = some 255) ∧
    (d.length ≠ w * h * 4 → d.length ≠ w * h * 3 →
      ∃ e, Picture.new w h d = .error e) := by
  refine ⟨fun h4 => ?_, fun h3 => ?_, fun h4 h3 => ?_⟩
  · unfold Picture.new
    rw [if_pos h4]
  · by_cases h4 : d.length = w * h * 4
    · refine ⟨⟨w, h, d⟩, ?_, rfl, rfl, h4, ?_⟩
      · unfold Picture.new
        rw [if_pos h4]
      · intro i hi
        have : w * h = 0 := by omega
        omega
    · obtain ⟨hlen, halpha⟩ := rgbToRgba_spec (w * h) d (by omega)
      refine ⟨⟨w, h, rgbToRgba d⟩, ?_, rfl, rfl,
        (by omega : (rgbToRgba d).length = w * h * 4), ?_⟩
      · unfold Picture.new
        rw [if_neg h4, if_pos (by omega : d.length = w * h * 3)]
      · intro i hi
        exact halpha i hi
  · refine ⟨"Image data length does not match width*height*channels dimensions.", ?_⟩
    unfold Picture.new
    rw [if_neg h4, if_neg h3]

/-- Witness for C1 at concrete inputs: a 1×1 RGBA buffer is stored unchanged,
a 1×1 RGB buffer is normalised, and a length-2 buffer is rejected. -/
theorem buffer_construction_normalization_witness :
    (Picture.new 1 1 [1, 2, 3, 4] = .ok ⟨1, 1, [1, 2, 3, 4]⟩) ∧
    (∃ p : Picture, Picture.new 1 1 [10, 20, 30] = .ok p ∧ p.width = 1 ∧
      p.height = 1 ∧ p.data.length = 1 * 1 * 4 ∧
      ∀ i : ℕ, i < 1 * 1 → p.data[4 * i + 3]? = some 255) ∧
    (∃ e, Picture.new 1 1 [9, 9] = .error e) :=
  ⟨(buffer_construction_normalization 1 1 [1, 2, 3, 4]).1 (by decide),
   (buffer_construction_normalization 1 1 [10, 20, 30]).2.1 (by decide),
   (buffer_construction_normalization 1 1 [9, 9]).2.2 (by decide) (by decide)⟩

theorem clampByte_natCast (n : ℕ) (h : n ≤ 255) : clampByte (n : ℚ) = n := by
  unfold clampByte roundTiesEven
  by_cases h0 : (n : ℚ) ≤ 0
  · rw [if_pos h0]
    exact (Nat.cast_nonpos.mp h0).symm
  · rw [if_neg h0]
    by_cases h255 : (255 : ℚ) ≤ (n : ℚ)
    · have : (255 : ℕ) ≤ n := by exact_mod_cast h255
      rw [if_pos h255]
      omega
    · rw [if_neg h255, if_neg (by rw [Int.floor_natCast]; push_cast; norm_num),
        round_natCast, Int.toNat_natCast]

theorem length_pixelGrid {α : Type} (g : ℕ → ℕ → List α) (Hh Ww : ℕ)
    (hg : ∀ y x, y < Hh → x < Ww → (g y x).length = 4) :
    ((List.range Hh).flatMap fun y =>
      (List.range Ww).flatMap fun x => g y x).length = Hh * (Ww * 4) :=
  length_flatMap_range _ Hh (Ww * 4) fun y hy =>
    length_flatMap_range _ Ww 4 fun x hx => hg y x hy hx

theorem getElem?_pixelGrid {α : Type} (g : ℕ → ℕ → List α) (Hh Ww : ℕ)
    (hg : ∀ y x, y < Hh → x < Ww → (g y x).length = 4)
    (py px c : ℕ) (hpy : py < Hh) (hpx : px < Ww) (hc : c < 4) :
    ((List.range Hh).flatMap fun y =>
      (List.range Ww).flatMap fun x => g y x)[(py * Ww + px) * 4 + c]? =
      (g py px)[c]? := by
  have hdec : (py * Ww + px) * 4 + c = py * (Ww * 4) + (px * 4 + c) := by ring
  rw [hdec]
  rw [getElem?_flatMap_range _ Hh (Ww * 4) py (px * 4 + c)
    (fun y hy => length_flatMap_range _ Ww 4 fun x hx => hg y x hy hx) hpy
    (by calc px * 4 + c < px * 4 + 4 := by omega
        _ = (px + 1) * 4 := by ring
        _ ≤ Ww * 4 := Nat.mul_le_mul_right 4 (by omega))]
  exact getElem?_flatMap_range _ Ww 4 px c (fun x hx => hg py x hpy hx) hpx hc

theorem pixelBytes_length (d : List ℕ) (p : ℕ) : (pixelBytes d p).length = 4 :=
  rfl

theorem convPixel_length (image : Picture) (kernel : List (List ℚ))
    (keepEdges : Bool) (y x : ℕ) :
    (convPixel image kernel keepEdges y x).length = 4 := by
  simp only [convPixel]
  split <;> rfl

theorem pixelBytes_getElem? (d : List ℕ) (p c : ℕ) (hc : c < 4)
    (hin : p * 4 + 3 < d.length) :
    (pixelBytes d p)[c]? = d[p * 4 + c]? := by
  have key : ∀ k : ℕ, k < d.length → some (d.getD k 0) = d[k]? := by
    intro k hk
    rw [List.getD_eq_getElem d 0 hk, List.getElem?_eq_getElem hk]
  interval_cases c
  · exact key (p * 4 + 0) (by omega)
  · exact key (p * 4 + 1) (by omega)
  · exact key (p * 4 + 2) (by omega)
  · exact key (p * 4 + 3) (by omega)

/-- Claim C6 — Kernel shape validation: a kernel with even width is rejected
with the odd-length error and a kernel with odd width but even height with the
odd-height error, before any pixel processing (the embedding returns the
error without touching the data); in particular the 3-wide 2-high and 2-wide
3-high kernels are both rejected. -/
theorem kernel_shape_validation (image : Picture) (kernel : List (List ℚ))
    (keepEdges : Bool) :
    ((kernel.headD []).length % 2 = 0 →
      convolve image kernel keepEdges =
        .error "Kernel is expected to have odd length") ∧
    ((kernel.headD []).length % 2 = 1 → kernel.length % 2 = 0 →
      convolve image kernel keepEdges =
        .error "Kernel is expected to have odd height") ∧
    (convolve image [[1, 1, 1], [1, 1, 1]] keepEdges =
      .error "Kernel is expected to have odd height") ∧
    (convolve image [[1, 1], [1, 1], [1, 1]] keepEdges =
      .error "Kernel is expected to have odd length") := by
  refine ⟨fun hw => ?_, fun hw hh => ?_, ?_, ?_⟩
  · unfold convolve
    rw [if_pos hw]
  · unfold convolve
    rw [if_neg (by omega), if_pos hh]
  · unfold convolve
    rw [if_neg (by norm_num), if_pos (by norm_num)]
  · unfold convolve
    rw [if_pos (by norm_num)]

/-- Witness for C6 on a concrete 1×1 image and a concrete even-width
kernel. -/
theorem kernel_shape_validation_witness :
    convolve ⟨1, 1, [0, 0, 0, 0]⟩ [[1, 1], [1, 1]] true =
      .error "Kernel is expected to have odd length" :=
  (kernel_shape_validation ⟨1, 1, [0, 0, 0, 0]⟩ [[1, 1], [1, 1]] true).1
    (by norm_num)

theorem convolve_ok (image : Picture) (kernel : List (List ℚ))
    (keepEdges : Bool) (hw : (kernel.headD []).length % 2 = 1)
    (hh : kernel.length % 2 = 1) :
    convolve image kernel keepEdges = .ok ⟨image.width, image.height,
      (List.range image.height).flatMap fun y =>
        (List.range image.width).flatMap fun x =>
          convPixel image kernel keepEdges y x⟩ := by
  unfold convolve
  rw [if_neg (by omega), if_neg (by omega)]

theorem any_isNone_of_entry (l : List (Option ℤ)) (k : ℕ)
    (h : l[k]? = some none) : (l.any fun c => c.isNone) = true := by
  rw [List.any_eq_true]
  exact ⟨none, List.getElem?_mem h, rfl⟩

theorem pixelIndex_lt (W H x y : ℕ) (hx : x < W) (hy : y < H) :
    y * W + x < W * H := by
  calc y * W + x < y * W + W := by omega
    _ = (y + 1) * W := by ring
    _ ≤ H * W := Nat.mul_le_mul_right W (by omega)
    _ = W * H := Nat.mul_comm H W

/-- Claim C4 — Convolution edge preservation: under the default policy
(`keepEdges = true`), every pixel whose kernel window reports an absent cell
is copied from the source unchanged, and for kernels wider (resp. taller)
than one cell every pixel of a vertical (resp. horizontal) border has such an
absent cell, so border pixels of the result equal the corresponding source
pixels. -/
theorem convolution_edge_preservation (image : Picture)
    (kernel : List (List ℚ)) (a b : ℕ)
    (hlen : image.data.length = image.width * image.height * 4)
    (hkw : (kernel.headD []).length = 2 * a + 1)
    (hkh : kernel.length = 2 * b + 1) :
    ∃ q : Picture, convolve image kernel true = .ok q ∧
      q.width = image.width ∧ q.height = image.height ∧
      ∀ x y : ℕ, x < image.width → y < image.height →
        (((findCoordsToConvolveKernel image.width image.height x y
            (2 * a + 1) (2 * b + 1)).any fun c => c.isNone) = true →
          ∀ c : ℕ, c < 4 →
            q.data[(y * image.width + x) * 4 + c]? =
              image.data[(y * image.width + x) * 4 + c]?) ∧
        ((1 ≤ a ∧ (x = 0 ∨ x + 1 = image.width)) ∨
            (1 ≤ b ∧ (y = 0 ∨ y + 1 = image.height)) →
          ((findCoordsToConvolveKernel image.width image.height x y
            (2 * a + 1) (2 * b + 1)).any fun c => c.isNone) = true) := by
  refine ⟨_, convolve_ok image kernel true (by omega) (by omega), rfl, rfl, ?_⟩
  intro x y hx hy
  constructor
  · intro hany c hc
    show ((List.range image.height).flatMap fun y =>
      (List.range image.width).flatMap fun x =>
        convPixel image kernel true y x)[(y * image.width + x) * 4 + c]? =
      image.data[(y * image.width + x) * 4 + c]?
    rw [getElem?_pixelGrid _ image.height image.width
      (fun y x _ _ => convPixel_length image kernel true y x) y x c hy hx hc]
    simp only [convPixel, hkw, hkh]
    rw [hany]
    simp only [Bool.and_true, if_true]
    exact pixelBytes_getElem? image.data (y * image.width + x) c hc
      (by have := pixelIndex_lt image.width image.height x y hx hy; omega)
  · intro hborder
    have ha2 : (2 * a + 1) / 2 = a := by omega
    have hb2 : (2 * b + 1) / 2 = b := by omega
    rcases hborder with ⟨ha1, hxb⟩ | ⟨hb1, hyb⟩
    · rcases hxb with hx0 | hxW
      · refine any_isNone_of_entry _ ((2 * a + 1) * (2 * b + 1) - 1 -
          (b * (2 * a + 1) + 0)) ?_
        rw [findCoords_getElem image.width image.height x y (2 * a + 1)
          (2 * b + 1) b 0 (by omega) (by omega)]
        unfold kernelCell
        rw [ha2, hb2]
        rw [if_neg (by omega), if_pos (by omega)]
      · refine any_isNone_of_entry _ ((2 * a + 1) * (2 * b + 1) - 1 -
          (b * (2 * a + 1) + 2 * a)) ?_
        rw [findCoords_getElem image.width image.height x y (2 * a + 1)
          (2 * b + 1) b (2 * a) (by omega) (by omega)]
        unfold kernelCell
        rw [ha2, hb2]
        rw [if_neg (by omega), if_pos (by omega)]
    · rcases hyb with hy0 | hyH
      · refine any_isNone_of_entry _ ((2 * a + 1) * (2 * b + 1) - 1 -
          (0 * (2 * a + 1) + a)) ?_
        rw [findCoords_getElem image.width image.height x y (2 * a + 1)
          (2 * b + 1) 0 a (by omega) (by omega)]
        unfold kernelCell
        rw [ha2, hb2]
        rw [if_pos (by omega)]
      · refine any_isNone_of_entry _ ((2 * a + 1) * (2 * b + 1) - 1 -
          (2 * b * (2 * a + 1) + a)) ?_
        rw [findCoords_getElem image.width image.height x y (2 * a + 1)
          (2 * b + 1) (2 * b) a (by omega) (by omega)]
        unfold kernelCell
        rw [ha2, hb2]
        rw [if_pos (by omega)]

/-- Witness for C4: a 1×1 image with the 3×3 identity kernel; the only pixel
is a border pixel and is preserved. -/
theorem convolution_edge_preservation_witness :
    ∃ q : Picture, convolve ⟨1, 1, [10, 20, 30, 40]⟩ Kernel.identity true =
        .ok q ∧
      q.width = (⟨1, 1, [10, 20, 30, 40]⟩ : Picture).width ∧
      q.height = (⟨1, 1, [10, 20, 30, 40]⟩ : Picture).height ∧
      ∀ x y : ℕ, x < (⟨1, 1, [10, 20, 30, 40]⟩ : Picture).width →
        y < (⟨1, 1, [10, 20, 30, 40]⟩ : Picture).height →
        (((findCoordsToConvolveKernel (⟨1, 1, [10, 20, 30, 40]⟩ : Picture).width
            (⟨1, 1, [10, 20, 30, 40]⟩ : Picture).height x y
            (2 * 1 + 1) (2 * 1 + 1)).any fun c => c.isNone) = true →
          ∀ c : ℕ, c < 4 →
            q.data[(y * (⟨1, 1, [10, 20, 30, 40]⟩ : Picture).width + x) * 4 + c]? =
              (⟨1, 1, [10, 20, 30, 40]⟩ : Picture).data[
                (y * (⟨1, 1, [10, 20, 30, 40]⟩ : Picture).width + x) * 4 + c]?) ∧
        ((1 ≤ 1 ∧ (x = 0 ∨ x + 1 = (⟨1, 1, [10, 20, 30, 40]⟩ : Picture).width)) ∨
            (1 ≤ 1 ∧ (y = 0 ∨ y + 1 = (⟨1, 1, [10, 20, 30, 40]⟩ : Picture).height)) →
          ((findCoordsToConvolveKernel (⟨1, 1, [10, 20, 30, 40]⟩ : Picture).width
            (⟨1, 1, [10, 20, 30, 40]⟩ : Picture).height x y
            (2 * 1 + 1) (2 * 1 + 1)).any fun c => c.isNone) = true) :=
  convolution_edge_preservation ⟨1, 1, [10, 20, 30, 40]⟩ Kernel.identity 1 1
    (by decide) (by decide) (by decide)

theorem getD_eq_getElem? (d : List ℕ) (k : ℕ) (hk : k < d.length) :
    some (d.getD k 0) = d[k]? := by
  rw [List.getD_eq_getElem d 0 hk, List.getElem?_eq_getElem hk]

theorem convStep_zero (d : List ℕ) (acc : ℚ × ℚ × ℚ) (c : Option ℤ) :
    convStep d acc (c, 0) = acc := by
  cases c <;> simp [convStep]

theorem foldl_convStep_zero (d : List ℕ) :
    ∀ (l : List (Option ℤ)) (m : ℕ) (acc : ℚ × ℚ × ℚ),
      (l.zip (List.replicate m (0 : ℚ))).foldl (convStep d) acc = acc := by
  intro l
  induction l with
  | nil => intro m acc; simp
  | cons c l ih =>
    intro m acc
    cases m with
    | zero => simp
    | succ m =>
      rw [List.replicate_succ, List.zip_cons_cons, List.foldl_cons,
        convStep_zero]
      exact ih m acc

theorem foldl_convStep_identity (d : List ℕ) (coords : List (Option ℤ))
    (hlen : coords.length = 9) (e4 : Option ℤ) (h4 : coords[4]? = some e4) :
    (coords.zip Kernel.identity.flatten).foldl (convStep d) (0, 0, 0) =
      convStep d (0, 0, 0) (e4, 1) := by
  have h4lt : 4 < coords.length := by omega
  have hflat : Kernel.identity.flatten =
      List.replicate 4 (0 : ℚ) ++ (1 : ℚ) :: List.replicate 4 (0 : ℚ) := by
    rfl
  have hsplit : coords = coords.take 4 ++ e4 :: coords.drop 5 := by
    have htad := List.take_append_drop 4 coords
    rw [List.drop_eq_getElem_cons h4lt] at htad
    rw [List.getElem?_eq_getElem h4lt, Option.some_inj] at h4
    rw [h4] at htad
    exact htad.symm
  rw [hsplit, hflat,
    List.zip_append (by rw [List.length_take, List.length_replicate]; omega),
    List.foldl_append, foldl_convStep_zero, List.zip_cons_cons,
    List.foldl_cons, foldl_convStep_zero]

theorem mem_findCoords_iff (W H : ℕ) (x y : ℤ) (kw kh : ℕ) (c : Option ℤ) :
    c ∈ findCoordsToConvolveKernel W H x y kw kh ↔
      ∃ j, j < kh ∧ ∃ i, i < kw ∧ kernelCell W H x y kw kh j i = c := by
  unfold findCoordsToConvolveKernel
  rw [List.mem_reverse, List.mem_flatMap]
  constructor
  · rintro ⟨j, hj, hmem⟩
    rw [List.mem_map] at hmem
    obtain ⟨i, hi, hc⟩ := hmem
    exact ⟨j, List.mem_range.mp hj, i, List.mem_range.mp hi, hc⟩
  · rintro ⟨j, hj, i, hi, hc⟩
    exact ⟨j, List.mem_range.mpr hj,
      List.mem_map.mpr ⟨i, List.mem_range.mpr hi, hc⟩⟩

theorem kernelCell_not_none (W H : ℕ) (x y : ℤ) (kw kh j i : ℕ)
    (h : ¬ ((kernelCell W H x y kw kh j i).isNone = true)) :
    ¬((j : ℤ) - (kh / 2 : ℕ) + y < 0 ∨ (j : ℤ) - (kh / 2 : ℕ) + y ≥ H) ∧
    ¬((i : ℤ) - (kw / 2 : ℕ) + x < 0 ∨ (i : ℤ) - (kw / 2 : ℕ) + x ≥ W) := by
  unfold kernelCell at h
  simp only at h
  by_cases hA : (j : ℤ) - (kh / 2 : ℕ) + y < 0 ∨ (j : ℤ) - (kh / 2 : ℕ) + y ≥ H
  · rw [if_pos hA] at h
    simp at h
  · rw [if_neg hA] at h
    by_cases hB : (i : ℤ) - (kw / 2 : ℕ) + x < 0 ∨ (i : ℤ) - (kw / 2 : ℕ) + x ≥ W
    · rw [if_pos hB] at h
      simp at h
    · exact ⟨hA, hB⟩

theorem kernelCell_not_none_of_bounds (W H : ℕ) (x y : ℤ) (kw kh j i : ℕ)
    (hA : ¬((j : ℤ) - (kh / 2 : ℕ) + y < 0 ∨ (j : ℤ) - (kh / 2 : ℕ) + y ≥ H))
    (hB : ¬((i : ℤ) - (kw / 2 : ℕ) + x < 0 ∨ (i : ℤ) - (kw / 2 : ℕ) + x ≥ W)) :
    ¬ ((kernelCell W H x y kw kh j i).isNone = true) := by
  unfold kernelCell
  simp only
  rw [if_neg hA, if_neg hB]
  simp

theorem findCoords33_noneFree_iff (W H x y : ℕ) (_hx : x < W) (_hy : y < H) :
    (((findCoordsToConvolveKernel W H x y 3 3).any fun c => c.isNone) = false) ↔
      (1 ≤ x ∧ x + 1 < W ∧ 1 ≤ y ∧ y + 1 < H) := by
  rw [List.any_eq_false]
  constructor
  · intro hall
    have hget : ∀ j i : ℕ, j < 3 → i < 3 →
        ¬ ((kernelCell W H x y 3 3 j i).isNone = true) := by
      intro j i hj hi
      exact hall _ ((mem_findCoords_iff W H x y 3 3 _).mpr
        ⟨j, hj, i, hi, rfl⟩)
    have h10 := (kernelCell_not_none W H x y 3 3 1 0
      (hget 1 0 (by omega) (by omega))).2
    have h12 := (kernelCell_not_none W H x y 3 3 1 2
      (hget 1 2 (by omega) (by omega))).2
    have h01 := (kernelCell_not_none W H x y 3 3 0 1
      (hget 0 1 (by omega) (by omega))).1
    have h21 := (kernelCell_not_none W H x y 3 3 2 1
      (hget 2 1 (by omega) (by omega))).1
    refine ⟨by omega, by omega, by omega, by omega⟩
  · intro hint c hcmem
    rw [mem_findCoords_iff] at hcmem
    obtain ⟨j, hj, i, hi, hc⟩ := hcmem
    subst hc
    exact kernelCell_not_none_of_bounds W H x y 3 3 j i (by omega) (by omega)

/-- Claim C3 (amended) — Convolution with the identity kernel under the
default edge policy reproduces the source RGB channels exactly at every
pixel; the alpha of the result is 255 at pixels whose 3×3 window lies fully
inside the image, while pixels with an absent window cell (all border pixels)
keep the source pixel unchanged, alpha included. -/
theorem convolution_identity_amended (image : Picture)
    (hlen : image.data.length = image.width * image.height * 4)
    (hbytes : ∀ v ∈ image.data, v ≤ 255) :
    ∃ q : Picture, convolve image Kernel.identity true = .ok q ∧
      q.width = image.width ∧ q.height = image.height ∧
      ∀ x y : ℕ, x < image.width → y < image.height →
        (∀ c : ℕ, c < 3 →
          q.data[(y * image.width + x) * 4 + c]? =
            image.data[(y * image.width + x) * 4 + c]?) ∧
        (q.data[(y * image.width + x) * 4 + 3]? =
          if 1 ≤ x ∧ x + 1 < image.width ∧ 1 ≤ y ∧ y + 1 < image.height
          then some 255
          else image.data[(y * image.width + x) * 4 + 3]?) := by
  refine ⟨_, convolve_ok image Kernel.identity true (by decide) (by decide),
    rfl, rfl, ?_⟩
  intro x y hx hy
  have hpix := pixelIndex_lt image.width image.height x y hx hy
  have hgrid : ∀ c : ℕ, c < 4 →
      ((List.range image.height).flatMap fun y =>
        (List.range image.width).flatMap fun x =>
          convPixel image Kernel.identity true y x)[
            (y * image.width + x) * 4 + c]? =
        (convPixel image Kernel.identity true y x)[c]? :=
    fun c hc => getElem?_pixelGrid _ image.height image.width
      (fun y x _ _ => convPixel_length image Kernel.identity true y x)
      y x c hy hx hc
  by_cases hint : 1 ≤ x ∧ x + 1 < image.width ∧ 1 ≤ y ∧ y + 1 < image.height
  · have hany : ((findCoordsToConvolveKernel image.width image.height x y
        3 3).any fun c => c.isNone) = false :=
      (findCoords33_noneFree_iff image.width image.height x y hx hy).mpr hint
    have hcenter : kernelCell image.width image.height x y 3 3 1 1 =
        some ((x : ℤ) + image.width * y) := by
      unfold kernelCell
      simp only
      rw [if_neg (by omega), if_neg (by omega)]
      congr 1
      push_cast
      ring
    have hcoordsget : (findCoordsToConvolveKernel image.width image.height
        x y 3 3)[4]? = some (some ((x : ℤ) + image.width * y)) := by
      have := findCoords_getElem image.width image.height x y 3 3 1 1
        (by omega) (by omega)
      rw [hcenter] at this
      exact this
    have htoNat : ((x : ℤ) + image.width * y).toNat = y * image.width + x := by
      have hcast : ((x : ℤ) + (image.width : ℤ) * (y : ℤ)) =
          ((y * image.width + x : ℕ) : ℤ) := by push_cast; ring
      rw [hcast, Int.toNat_natCast]
    have hfold : ((findCoordsToConvolveKernel image.width image.height x y
          3 3).zip Kernel.identity.flatten).foldl (convStep image.data)
        (0, 0, 0) =
        ((image.data.getD ((y * image.width + x) * 4 + 0) 0 : ℚ),
         (image.data.getD ((y * image.width + x) * 4 + 1) 0 : ℚ),
         (image.data.getD ((y * image.width + x) * 4 + 2) 0 : ℚ)) := by
      rw [foldl_convStep_identity image.data _
        (findCoords_length image.width image.height x y 3 3) _ hcoordsget]
      unfold convStep
      simp only [htoNat]
      norm_num
    have hbyte : ∀ k : ℕ, k < image.data.length → image.data.getD k 0 ≤ 255 := by
      intro k hk
      rw [List.getD_eq_getElem image.data 0 hk]
      exact hbytes _ (List.getElem_mem hk)
    have hconv : convPixel image Kernel.identity true y x =
        [image.data.getD ((y * image.width + x) * 4 + 0) 0,
         image.data.getD ((y * image.width + x) * 4 + 1) 0,
         image.data.getD ((y * image.width + x) * 4 + 2) 0, 255] := by
      unfold convPixel
      rw [show ((Kernel.identity.headD []).length) = 3 from rfl,
        show (Kernel.identity.length) = 3 from rfl]
      rw [if_neg (by simp [hany])]
      simp only
      rw [hfold]
      simp only
      rw [clampByte_natCast _ (hbyte _ (by omega)),
        clampByte_natCast _ (hbyte _ (by omega)),
        clampByte_natCast _ (hbyte _ (by omega))]
    constructor
    · intro c hc
      show ((List.range image.height).flatMap fun y =>
        (List.range image.width).flatMap fun x =>
          convPixel image Kernel.identity true y x)[
            (y * image.width + x) * 4 + c]? =
        image.data[(y * image.width + x) * 4 + c]?
      rw [hgrid c (by omega), hconv]
      interval_cases c
      · exact getD_eq_getElem? image.data _ (by omega)
      · exact getD_eq_getElem? image.data _ (by omega)
      · exact getD_eq_getElem? image.data _ (by omega)
    · show ((List.range image.height).flatMap fun y =>
        (List.range image.width).flatMap fun x =>
          convPixel image Kernel.identity true y x)[
            (y * image.width + x) * 4 + 3]? = _
      rw [hgrid 3 (by omega), hconv, if_pos hint]
      rfl
  · have hany : ((findCoordsToConvolveKernel image.width image.height x y
        3 3).any fun c => c.isNone) = true := by
      rcases Bool.eq_false_or_eq_true ((findCoordsToConvolveKernel
        image.width image.height x y 3 3).any fun c => c.isNone) with h | h
      · exact h
      · exact absurd ((findCoords33_noneFree_iff image.width image.height
          x y hx hy).mp h) hint
    have hconv : convPixel image Kernel.identity true y x =
        pixelBytes image.data (y * image.width + x) := by
      unfold convPixel
      rw [show ((Kernel.identity.headD []).length) = 3 from rfl,
        show (Kernel.identity.length) = 3 from rfl]
      rw [if_pos (by simp [hany])]
    constructor
    · intro c hc
      show ((List.range image.height).flatMap fun y =>
        (List.range image.width).flatMap fun x =>
          convPixel image Kernel.identity true y x)[
            (y * image.width + x) * 4 + c]? =
        image.data[(y * image.width + x) * 4 + c]?
      rw [hgrid c (by omega), hconv]
      exact pixelBytes_getElem? image.data _ c (by omega) (by omega)
    · show ((List.range image.height).flatMap fun y =>
        (List.range image.width).flatMap fun x =>
          convPixel image Kernel.identity true y x)[
            (y * image.width + x) * 4 + 3]? = _
      rw [hgrid 3 (by omega), hconv, if_neg hint]
      exact pixelBytes_getElem? image.data _ 3 (by omega) (by omega)

/-- Witness for the amended C3 on a concrete 2×1 buffer whose second pixel
has a non-255 alpha. -/
theorem convolution_identity_amended_witness :
    ∃ q : Picture,
      convolve ⟨2, 1, [1, 2, 3, 255, 5, 6, 7, 8]⟩ Kernel.identity true =
        .ok q ∧
      q.width = (⟨2, 1, [1, 2, 3, 255, 5, 6, 7, 8]⟩ : Picture).width ∧
      q.height = (⟨2, 1, [1, 2, 3, 255, 5, 6, 7, 8]⟩ : Picture).height ∧
      ∀ x y : ℕ, x < (⟨2, 1, [1, 2, 3, 255, 5, 6, 7, 8]⟩ : Picture).width →
        y < (⟨2, 1, [1, 2, 3, 255, 5, 6, 7, 8]⟩ : Picture).height →
        (∀ c : ℕ, c < 3 →
          q.data[(y * (⟨2, 1, [1, 2, 3, 255, 5, 6, 7, 8]⟩ : Picture).width + x)
              * 4 + c]? =
            (⟨2, 1, [1, 2, 3, 255, 5, 6, 7, 8]⟩ : Picture).data[
              (y * (⟨2, 1, [1, 2, 3, 255, 5, 6, 7, 8]⟩ : Picture).width + x)
                * 4 + c]?) ∧
        (q.data[(y * (⟨2, 1, [1, 2, 3, 255, 5, 6, 7, 8]⟩ : Picture).width + x)
            * 4 + 3]? =
          if 1 ≤ x ∧ x + 1 < (⟨2, 1, [1, 2, 3, 255, 5, 6, 7, 8]⟩ : Picture).width ∧
              1 ≤ y ∧ y + 1 < (⟨2, 1, [1, 2, 3, 255, 5, 6, 7, 8]⟩ : Picture).height
          then some 255
          else (⟨2, 1, [1, 2, 3, 255, 5, 6, 7, 8]⟩ : Picture).data[
            (y * (⟨2, 1, [1, 2, 3, 255, 5, 6, 7, 8]⟩ : Picture).width + x)
              * 4 + 3]?) :=
  convolution_identity_amended ⟨2, 1, [1, 2, 3, 255, 5, 6, 7, 8]⟩
    (by decide) (by decide)

/-- Counterexample to claim C3 as stated: under the default edge policy a
1×1 buffer with source alpha 0 convolved with the identity kernel keeps
alpha 0 — the whole pixel is a border pixel, so it is copied unchanged
instead of having its alpha forced to 255. -/
theorem convolution_identity_alpha_counterexample :
    ∃ q : Picture,
      convolve ⟨1, 1, [10, 20, 30, 0]⟩ Kernel.identity true = .ok q ∧
      q.data[4 * 0 + 3]? = some 0 ∧ some (0 : ℕ) ≠ some (255 : ℕ) :=
  ⟨⟨1, 1, [10, 20, 30, 0]⟩, rfl, by decide, by decide⟩

/-- Witness for C10: in a 3×3 image with a 3×3 kernel at the corner `(0, 0)`,
the present entry 4 is a valid pixel index. -/
theorem mapper_indices_in_bounds_witness :
    (0 : ℤ) ≤ 4 ∧ (4 : ℤ) < ((3 * 3 : ℕ) : ℤ) ∧
    ∀ c : ℕ, c < 4 → (4 : ℤ).toNat * 4 + c < 3 * 3 * 4 :=
  mapper_indices_in_bounds 3 3 0 0 3 3 (by decide) (by decide) (by decide)
    (by decide) (by decide) (by decide) 4 (by decide)

theorem resizePixel_length (picture : Picture) (offsetX offsetY : ℤ)
    (di dj : ℕ) :
    (if 0 ≤ offsetY + (di : ℤ) ∧ offsetY + (di : ℤ) < picture.height ∧
        0 ≤ offsetX + (dj : ℤ) ∧ offsetX + (dj : ℤ) < picture.width then
      pixelBytes picture.data ((offsetY + (di : ℤ)).toNat * picture.width +
        (offsetX + (dj : ℤ)).toNat)
    else [0, 0, 0, 0]).length = 4 := by
  split <;> rfl

theorem resize_data_getElem (picture : Picture) (offsetX offsetY : ℤ)
    (width height : ℕ)
    (hlen : picture.data.length = picture.width * picture.height * 4)
    (dj di c : ℕ) (hdj : dj < width) (hdi : di < height) (hc : c < 4) :
    (resize picture offsetX offsetY width height).data[
        (di * width + dj) * 4 + c]? =
      if 0 ≤ offsetY + (di : ℤ) ∧ offsetY + (di : ℤ) < picture.height ∧
          0 ≤ offsetX + (dj : ℤ) ∧ offsetX + (dj : ℤ) < picture.width
      then picture.data[((offsetY + (di : ℤ)).toNat * picture.width +
        (offsetX + (dj : ℤ)).toNat) * 4 + c]?
      else some 0 := by
  show ((List.range height).flatMap fun di =>
    (List.range width).flatMap fun dj =>
      let i : ℤ := offsetY + di
      let j : ℤ := offsetX + dj
      if 0 ≤ i ∧ i < picture.height ∧ 0 ≤ j ∧ j < picture.width then
        pixelBytes picture.data (i.toNat * picture.width + j.toNat)
      else [0, 0, 0, 0])[(di * width + dj) * 4 + c]? = _
  rw [getElem?_pixelGrid _ height width
    (fun di dj _ _ => resizePixel_length picture offsetX offsetY di dj)
    di dj c hdi hdj hc]
  split_ifs with hcond
  · have hi : (offsetY + (di : ℤ)).toNat < picture.height := by omega
    have hj : (offsetX + (dj : ℤ)).toNat < picture.width := by omega
    have hp := pixelIndex_lt picture.width picture.height
      (offsetX + (dj : ℤ)).toNat (offsetY + (di : ℤ)).toNat hj hi
    exact pixelBytes_getElem? picture.data _ c hc (by omega)
  · interval_cases c <;> rfl

theorem pixel_decompose (W H n : ℕ) (hn : n < H * (W * 4)) :
    ∃ di dj c : ℕ, di < H ∧ dj < W ∧ c < 4 ∧ n = (di * W + dj) * 4 + c := by
  have hW4 : 0 < W * 4 := by
    rcases Nat.eq_zero_or_pos W with h | h
    · subst h; simp at hn
    · omega
  have h1 := Nat.div_add_mod n (W * 4)
  have h2 := Nat.div_add_mod (n % (W * 4)) 4
  have hr : n % (W * 4) < W * 4 := Nat.mod_lt _ hW4
  refine ⟨n / (W * 4), (n % (W * 4)) / 4, (n % (W * 4)) % 4,
    (Nat.div_lt_iff_lt_mul hW4).mpr hn,
    (Nat.div_lt_iff_lt_mul (by omega : 0 < 4)).mpr hr,
    Nat.mod_lt _ (by omega), ?_⟩
  calc n = W * 4 * (n / (W * 4)) + n % (W * 4) := h1.symm
    _ = W * 4 * (n / (W * 4)) + (4 * ((n % (W * 4)) / 4) + (n % (W * 4)) % 4) :=
      by rw [h2]
    _ = (n / (W * 4) * W + (n % (W * 4)) / 4) * 4 + (n % (W * 4)) % 4 := by ring

/-- Claim C7 — Resize contract: the result is exactly `width × height`; each
destination pixel `(dj, di)` copies the source pixel
`(offsetX + dj, offsetY + di)` verbatim when that pixel is inside the source
and stays the all-zero transparent default otherwise; and the no-op resize
`resize buf 0 0 buf.width buf.height` reproduces `buf.data` exactly. -/
theorem resize_contract (picture : Picture) (offsetX offsetY : ℤ)
    (width height : ℕ)
    (hlen : picture.data.length = picture.width * picture.height * 4) :
    (resize picture offsetX offsetY width height).width = width ∧
    (resize picture offsetX offsetY width height).height = height ∧
    (∀ dj di c : ℕ, dj < width → di < height → c < 4 →
      (resize picture offsetX offsetY width height).data[
          (di * width + dj) * 4 + c]? =
        if 0 ≤ offsetY + (di : ℤ) ∧ offsetY + (di : ℤ) < picture.height ∧
            0 ≤ offsetX + (dj : ℤ) ∧ offsetX + (dj : ℤ) < picture.width
        then picture.data[((offsetY + (di : ℤ)).toNat * picture.width +
          (offsetX + (dj : ℤ)).toNat) * 4 + c]?
        else some 0) ∧
    (resize picture 0 0 picture.width picture.height).data = picture.data := by
  refine ⟨rfl, rfl,
    fun dj di c hdj hdi hc =>
      resize_data_getElem picture offsetX offsetY width height hlen
        dj di c hdj hdi hc, ?_⟩
  refine List.ext_getElem? fun n => ?_
  by_cases hn : n < picture.height * (picture.width * 4)
  · obtain ⟨di, dj, c, hdi, hdj, hc, rfl⟩ :=
      pixel_decompose picture.width picture.height n hn
    rw [resize_data_getElem picture 0 0 picture.width picture.height hlen
      dj di c hdj hdi hc]
    rw [if_pos ⟨by omega, by omega, by omega, by omega⟩]
    have hti : (0 + (di : ℤ)).toNat = di := by omega
    have htj : (0 + (dj : ℤ)).toNat = dj := by omega
    rw [hti, htj]
  · have hlen2 : (resize picture 0 0 picture.width picture.height).data.length =
        picture.height * (picture.width * 4) := by
      show ((List.range picture.height).flatMap fun di =>
        (List.range picture.width).flatMap fun dj =>
          let i : ℤ := 0 + di
          let j : ℤ := 0 + dj
          if 0 ≤ i ∧ i < picture.height ∧ 0 ≤ j ∧ j < picture.width then
            pixelBytes picture.data (i.toNat * picture.width + j.toNat)
          else [0, 0, 0, 0]).length = _
      exact length_pixelGrid _ picture.height picture.width
        (fun di dj _ _ => resizePixel_length picture 0 0 di dj)
    rw [List.getElem?_eq_none (by omega),
      List.getElem?_eq_none (by
        rw [hlen]
        have : picture.width * picture.height * 4 =
          picture.height * (picture.width * 4) := by ring
        omega)]

/-- Witness for C7 on a concrete 2×1 buffer, shifted one pixel left into a
3×1 result. -/
theorem resize_contract_witness :
    (resize ⟨2, 1, [1, 2, 3, 4, 5, 6, 7, 8]⟩ (-1) 0 3 1).width = 3 ∧
    (resize ⟨2, 1, [1, 2, 3, 4, 5, 6, 7, 8]⟩ (-1) 0 3 1).height = 1 ∧
    (∀ dj di c : ℕ, dj < 3 → di < 1 → c < 4 →
      (resize ⟨2, 1, [1, 2, 3, 4, 5, 6, 7, 8]⟩ (-1) 0 3 1).data[
          (di * 3 + dj) * 4 + c]? =
        if 0 ≤ (0 : ℤ) + (di : ℤ) ∧
            (0 : ℤ) + (di : ℤ) < (⟨2, 1, [1, 2, 3, 4, 5, 6, 7, 8]⟩ : Picture).height ∧
            0 ≤ (-1 : ℤ) + (dj : ℤ) ∧
            (-1 : ℤ) + (dj : ℤ) < (⟨2, 1, [1, 2, 3, 4, 5, 6, 7, 8]⟩ : Picture).width
        then (⟨2, 1, [1, 2, 3, 4, 5, 6, 7, 8]⟩ : Picture).data[
          (((0 : ℤ) + (di : ℤ)).toNat *
              (⟨2, 1, [1, 2, 3, 4, 5, 6, 7, 8]⟩ : Picture).width +
            ((-1 : ℤ) + (dj : ℤ)).toNat) * 4 + c]?
        else some 0) ∧
    (resize ⟨2, 1, [1, 2, 3, 4, 5, 6, 7, 8]⟩ 0 0
        (⟨2, 1, [1, 2, 3, 4, 5, 6, 7, 8]⟩ : Picture).width
        (⟨2, 1, [1, 2, 3, 4, 5, 6, 7, 8]⟩ : Picture).height).data =
      (⟨2, 1, [1, 2, 3, 4, 5, 6, 7, 8]⟩ : Picture).data :=
  resize_contract ⟨2, 1, [1, 2, 3, 4, 5, 6, 7, 8]⟩ (-1) 0 3 1 (by decide)

theorem mergePixel_pixelBytes_length (d : List ℕ) (p : ℕ) (q : List ℕ) :
    (mergePixel (pixelBytes d p) q).length = 4 := by
  simp only [mergePixel]
  split <;> rfl

/-- Claim C5 — Compositor over math: (1) every destination pixel of `merge2`
covered by the foreground rectangle holds the alpha-over composite
`mergePixel` of the background and foreground pixels; (2) a fully opaque
foreground pixel replaces the RGB and sets alpha 255; (3) a fully transparent
foreground leaves the background pixel unchanged; (4) in general the composite
is `cOut = (ca*aA*(1-aB) + cb*aB) / aOut` per RGB channel with
`aOut = aA*(1-aB) + aB` and `aOut*255` stored as alpha, the alphas being the
source alphas normalised by 255 (the both-zero case keeps the background
pixel). -/
theorem compositor_over_math (a b : Picture) (offsetX offsetY : ℤ) :
    (∀ i j c : ℕ, i < a.height → j < a.width → c < 4 →
      offsetY ≤ (i : ℤ) → (i : ℤ) < offsetY + b.height →
      offsetX ≤ (j : ℤ) → (j : ℤ) < offsetX + b.width →
      (merge2 a b offsetX offsetY).data[(i * a.width + j) * 4 + c]? =
        (mergePixel (pixelBytes a.data (a.width * i + j))
          (pixelBytes b.data (b.width * ((i : ℤ) - offsetY).toNat +
            ((j : ℤ) - offsetX).toNat)))[c]?) ∧
    (∀ pa : List ℕ, ∀ r2 g2 b2 : ℕ, r2 ≤ 255 → g2 ≤ 255 → b2 ≤ 255 →
      mergePixel pa [r2, g2, b2, 255] = [r2, g2, b2, 255]) ∧
    (∀ r1 g1 b1 al : ℕ, r1 ≤ 255 → g1 ≤ 255 → b1 ≤ 255 → al ≤ 255 →
      ∀ pb : List ℕ, pb.getD 3 0 = 0 →
      mergePixel [r1, g1, b1, al] pb = [r1, g1, b1, al]) ∧
    (∀ pa pb : List ℕ,
      ¬((pa.getD 3 0 : ℚ) / 255 = 0 ∧ (pb.getD 3 0 : ℚ) / 255 = 0) →
      mergePixel pa pb =
        [clampByte (((pa.getD 0 0 : ℚ) * ((pa.getD 3 0 : ℚ) / 255) *
            (1 - (pb.getD 3 0 : ℚ) / 255) +
            (pb.getD 0 0 : ℚ) * ((pb.getD 3 0 : ℚ) / 255)) /
            (((pa.getD 3 0 : ℚ) / 255) * (1 - (pb.getD 3 0 : ℚ) / 255) +
              (pb.getD 3 0 : ℚ) / 255)),
         clampByte (((pa.getD 1 0 : ℚ) * ((pa.getD 3 0 : ℚ) / 255) *
            (1 - (pb.getD 3 0 : ℚ) / 255) +
            (pb.getD 1 0 : ℚ) * ((pb.getD 3 0 : ℚ) / 255)) /
            (((pa.getD 3 0 : ℚ) / 255) * (1 - (pb.getD 3 0 : ℚ) / 255) +
              (pb.getD 3 0 : ℚ) / 255)),
         clampByte (((pa.getD 2 0 : ℚ) * ((pa.getD 3 0 : ℚ) / 255) *
            (1 - (pb.getD 3 0 : ℚ) / 255) +
            (pb.getD 2 0 : ℚ) * ((pb.getD 3 0 : ℚ) / 255)) /
            (((pa.getD 3 0 : ℚ) / 255) * (1 - (pb.getD 3 0 : ℚ) / 255) +
              (pb.getD 3 0 : ℚ) / 255)),
         clampByte ((((pa.getD 3 0 : ℚ) / 255) * (1 - (pb.getD 3 0 : ℚ) / 255) +
           (pb.getD 3 0 : ℚ) / 255) * 255)]) := by
  refine ⟨?_, ?_, ?_, ?_⟩
  · intro i j c hi hj hc h1 h2 h3 h4
    show ((List.range a.height).flatMap fun i =>
      (List.range a.width).flatMap fun j =>
        if offsetY ≤ (i : ℤ) ∧ (i : ℤ) < offsetY + b.height ∧
            offsetX ≤ (j : ℤ) ∧ (j : ℤ) < offsetX + b.width then
          mergePixel (pixelBytes a.data (a.width * i + j))
            (pixelBytes b.data
              (b.width * ((i : ℤ) - offsetY).toNat + ((j : ℤ) - offsetX).toNat))
        else pixelBytes a.data (a.width * i + j))[(i * a.width + j) * 4 + c]? = _
    rw [getElem?_pixelGrid _ a.height a.width
      (fun i j _ _ => by
        split
        · exact mergePixel_pixelBytes_length a.data (a.width * i + j) _
        · rfl)
      i j c hi hj hc]
    rw [if_pos ⟨h1, h2, h3, h4⟩]
  · intro pa r2 g2 b2 hr hg hb
    unfold mergePixel
    rw [if_neg (by simp)]
    simp only [List.cons.injEq, and_true]
    refine ⟨?_, ?_, ?_, ?_⟩
    · convert clampByte_natCast r2 hr using 2
      simp [List.getD]
    · convert clampByte_natCast g2 hg using 2
      simp [List.getD]
    · convert clampByte_natCast b2 hb using 2
      simp [List.getD]
    · convert clampByte_natCast 255 (by omega) using 2
      simp [List.getD]
  · intro r1 g1 b1 al hr hg hb hal pb hpb3
    unfold mergePixel
    by_cases h0 : al = 0
    · rw [if_pos ?_]
      constructor
      · subst h0
        simp [List.getD]
      · rw [hpb3]
        norm_num
    · have halQ : ((al : ℚ)) ≠ 0 := by exact_mod_cast h0
      rw [if_neg ?_]
      swap
      · rintro ⟨ha0, -⟩
        apply h0
        have : (([r1, g1, b1, al] : List ℕ).getD 3 0 : ℚ) = 0 := by
          field_simp at ha0
          exact_mod_cast ha0
        simpa [List.getD] using this
      simp only [List.cons.injEq, and_true]
      refine ⟨?_, ?_, ?_, ?_⟩
      · convert clampByte_natCast r1 hr using 2
        rw [hpb3]
        simp only [List.getD]
        push_cast
        field_simp
      · convert clampByte_natCast g1 hg using 2
        rw [hpb3]
        simp only [List.getD]
        push_cast
        field_simp
      · convert clampByte_natCast b1 hb using 2
        rw [hpb3]
        simp only [List.getD]
        push_cast
        field_simp
      · convert clampByte_natCast al hal using 2
        rw [hpb3]
        simp only [List.getD]
        push_cast
        field_simp
  · intro pa pb h
    unfold mergePixel
    rw [if_neg h]

/-- Witness for C5 with concrete 1×1 background and foreground buffers. -/
theorem compositor_over_math_witness :
    ((merge2 ⟨1, 1, [100, 110, 120, 200]⟩ ⟨1, 1, [10, 20, 30, 255]⟩ 0 0).data[
        (0 * 1 + 0) * 4 + 0]? =
      (mergePixel (pixelBytes [100, 110, 120, 200] (1 * 0 + 0))
        (pixelBytes [10, 20, 30, 255]
          (1 * ((0 : ℤ) - 0).toNat + ((0 : ℤ) - 0).toNat)))[0]?) ∧
    (mergePixel [9, 9, 9, 9] [10, 20, 30, 255] = [10, 20, 30, 255]) ∧
    (mergePixel [1, 2, 3, 4] [7, 8, 9, 0] = [1, 2, 3, 4]) ∧
    (mergePixel [100, 110, 120, 200] [10, 20, 30, 255] =
      [clampByte ((((([100, 110, 120, 200] : List ℕ).getD 0 0 : ℕ) : ℚ) *
          (((([100, 110, 120, 200] : List ℕ).getD 3 0 : ℕ) : ℚ) / 255) *
          (1 - ((([10, 20, 30, 255] : List ℕ).getD 3 0 : ℕ) : ℚ) / 255) +
          ((([10, 20, 30, 255] : List ℕ).getD 0 0 : ℕ) : ℚ) *
          (((([10, 20, 30, 255] : List ℕ).getD 3 0 : ℕ) : ℚ) / 255)) /
          ((((([100, 110, 120, 200] : List ℕ).getD 3 0 : ℕ) : ℚ) / 255) *
            (1 - ((([10, 20, 30, 255] : List ℕ).getD 3 0 : ℕ) : ℚ) / 255) +
            ((([10, 20, 30, 255] : List ℕ).getD 3 0 : ℕ) : ℚ) / 255)),
       clampByte ((((([100, 110, 120, 200] : List ℕ).getD 1 0 : ℕ) : ℚ) *
          (((([100, 110, 120, 200] : List ℕ).getD 3 0 : ℕ) : ℚ) / 255) *
          (1 - ((([10, 20, 30, 255] : List ℕ).getD 3 0 : ℕ) : ℚ) / 255) +
          ((([10, 20, 30, 255] : List ℕ).getD 1 0 : ℕ) : ℚ) *
          (((([10, 20, 30, 255] : List ℕ).getD 3 0 : ℕ) : ℚ) / 255)) /
          ((((([100, 110, 120, 200] : List ℕ).getD 3 0 : ℕ) : ℚ) / 255) *
            (1 - ((([10, 20, 30, 255] : List ℕ).getD 3 0 : ℕ) : ℚ) / 255) +
            ((([10, 20, 30, 255] : List ℕ).getD 3 0 : ℕ) : ℚ) / 255)),
       clampByte ((((([100, 110, 120, 200] : List ℕ).getD 2 0 : ℕ) : ℚ) *
          (((([100, 110, 120, 200] : List ℕ).getD 3 0 : ℕ) : ℚ) / 255) *
          (1 - ((([10, 20, 30, 255] : List ℕ).getD 3 0 : ℕ) : ℚ) / 255) +
          ((([10, 20, 30, 255] : List ℕ).getD 2 0 : ℕ) : ℚ) *
          (((([10, 20, 30, 255] : List ℕ).getD 3 0 : ℕ) : ℚ) / 255)) /
          ((((([100, 110, 120, 200] : List ℕ).getD 3 0 : ℕ) : ℚ) / 255) *
            (1 - ((([10, 20, 30, 255] : List ℕ).getD 3 0 : ℕ) : ℚ) / 255) +
            ((([10, 20, 30, 255] : List ℕ).getD 3 0 : ℕ) : ℚ) / 255)),
       clampByte (((((([100, 110, 120, 200] : List ℕ).getD 3 0 : ℕ) : ℚ) / 255) *
          (1 - ((([10, 20, 30, 255] : List ℕ).getD 3 0 : ℕ) : ℚ) / 255) +
          ((([10, 20, 30, 255] : List ℕ).getD 3 0 : ℕ) : ℚ) / 255) * 255)]) := by
  obtain ⟨h1, h2, h3, h4⟩ := compositor_over_math ⟨1, 1, [100, 110, 120, 200]⟩
    ⟨1, 1, [10, 20, 30, 255]⟩ 0 0
  exact ⟨h1 0 0 0 (by decide) (by decide) (by decide) (by decide) (by decide)
      (by decide) (by decide),
    h2 [9, 9, 9, 9] 10 20 30 (by omega) (by omega) (by omega),
    h3 1 2 3 4 (by omega) (by omega) (by omega) (by omega) [7, 8, 9, 0]
      (by decide),
    h4 [100, 110, 120, 200] [10, 20, 30, 255] (by norm_num [List.getD])⟩

/-- Claim C8 — Comparator symmetry: `comparePixels` is symmetric under the
`ignore` policy and under the alpha-difference policy (named `compare` in the
`src/lib` comparator and `subtract` in its sibling implementation), for every
pair of pixels. -/
theorem comparator_symmetry (a b : List ℚ) :
    Comparator.comparePixels a b .ignore = Comparator.comparePixels b a .ignore ∧
    Comparator.comparePixels a b .compare =
      Comparator.comparePixels b a .compare ∧
    Comparator2.comparePixels a b .ignore =
      Comparator2.comparePixels b a .ignore ∧
    Comparator2.comparePixels a b .subtract =
      Comparator2.comparePixels b a .subtract := by
  have hig : ignoreScore a b = ignoreScore b a := by
    unfold ignoreScore
    rw [abs_sub_comm (a.getD 0 0) (b.getD 0 0),
      abs_sub_comm (a.getD 1 0) (b.getD 1 0),
      abs_sub_comm (a.getD 2 0) (b.getD 2 0)]
  refine ⟨hig, ?_, hig, ?_⟩
  · show ignoreScore a b + |a.getD 3 255 - b.getD 3 255| =
      ignoreScore b a + |b.getD 3 255 - a.getD 3 255|
    rw [hig, abs_sub_comm (a.getD 3 255) (b.getD 3 255)]
  · show ignoreScore a b + |a.getD 3 255 - b.getD 3 255| =
      ignoreScore b a + |b.getD 3 255 - a.getD 3 255|
    rw [hig, abs_sub_comm (a.getD 3 255) (b.getD 3 255)]

theorem foldlM_except_exists {α β : Type} (f : β → α → Except String β)
    (hf : ∀ d x, ∃ v, f d x = .ok v) :
    ∀ (l : List α) (init : β), ∃ v, l.foldlM f init = .ok v := by
  intro l
  induction l with
  | nil => intro init; exact ⟨init, rfl⟩
  | cons a l ih =>
    intro init
    obtain ⟨v, hv⟩ := hf init a
    obtain ⟨w, hw⟩ := ih v
    refine ⟨w, ?_⟩
    rw [List.foldlM_cons, hv]
    exact hw

theorem tmod_lower (a b : ℤ) (h : 0 < b) : -b < a.tmod b := by
  rcases le_or_lt 0 a with ha | ha
  · have := Int.tmod_nonneg b ha
    omega
  · have h1 : 0 ≤ (-a).tmod b := Int.tmod_nonneg b (by omega)
    have h2 : (-a).tmod b < b := Int.tmod_lt_of_pos (-a) h
    have k1 := Int.tdiv_add_tmod a b
    have k2 := Int.tdiv_add_tmod (-a) b
    have k3 : (-a).tdiv b = -(a.tdiv b) := Int.neg_tdiv a b
    have k4 : b * ((-a).tdiv b) = -(b * (a.tdiv b)) := by rw [k3]; ring
    omega

theorem groupArr4_length_aux :
    ∀ (n : ℕ) (l : List ℕ), l.length ≤ n →
      (groupArr4 l).length = (l.length + 3) / 4 := by
  intro n
  induction n with
  | zero =>
    intro l hl
    have : l = [] := List.length_eq_zero.mp (by omega)
    subst this
    simp [groupArr4]
  | succ n ih =>
    intro l hl
    match l with
    | [] => simp [groupArr4]
    | a :: rest =>
      rw [groupArr4]
      simp only [List.length_cons]
      simp only [List.length_cons] at hl
      have hrest : (rest.drop 3).length ≤ n := by
        simp only [List.length_drop]
        omega
      rw [ih (rest.drop 3) hrest]
      simp only [List.length_drop]
      omega

theorem groupArr4_length (l : List ℕ) :
    (groupArr4 l).length = (l.length + 3) / 4 :=
  groupArr4_length_aux l.length l (le_refl _)

theorem tileChannels_length (main : Picture) (x y : ℤ) (bw bh : ℕ) :
    (tileChannels main x y bw bh).length = bh * bw := by
  unfold tileChannels
  refine length_flatMap_range _ bh bw fun j _ => ?_
  simp only
  split
  · exact List.length_replicate bw none
  · simp only [List.length_map, List.length_range]

theorem compareMultiplePixels_ok (a b : List (Option (List ℚ)))
    (alpha : AlphaOption2) (us : ℚ) (h : a.length = b.length) :
    Comparator2.compareMultiplePixels a b alpha us =
      .ok ((a.zip b).foldl
        (fun answer pq =>
          match pq.1, pq.2 with
          | some p, some q => answer + Comparator2.comparePixels p q alpha
          | _, _ => answer + us)
        0) := by
  unfold Comparator2.compareMultiplePixels
  rw [if_neg (by omega)]

theorem scan_shape {α β γ : Type} (l : List α) (F : β → α → Except String β)
    (init : β) (k : β → γ)
    (hf : ∀ d x, ∃ v, F d x = .ok v) :
    ∃ d : β,
      (l.foldlM F init >>= fun data => (pure (k data) : Except String γ)) =
        .ok (k d) := by
  obtain ⟨D, hD⟩ := foldlM_except_exists F hf l init
  refine ⟨D, ?_⟩
  rw [hD]
  rfl

theorem blockSimilarityScan_ok (main block : Picture)
    (hlen : block.data.length = block.width * block.height * 4)
    (offsetX offsetY : ℤ) :
    ∃ d : List ℕ, blockSimilarityScan main block offsetX offsetY =
      .ok ⟨main.width, main.height, d⟩ := by
  have hblen : ((groupArr4 block.data).map
      (fun g => some (g.map (Nat.cast : ℕ → ℚ)))).length =
      block.width * block.height := by
    rw [List.length_map, groupArr4_length, hlen]
    omega
  have hchan : ∀ x y : ℤ,
      (tileChannels main x y block.width block.height).length =
        ((groupArr4 block.data).map
          (fun g => some (g.map (Nat.cast : ℕ → ℚ)))).length := by
    intro x y
    rw [tileChannels_length, hblen, Nat.mul_comm]
  unfold blockSimilarityScan
  simp only
  refine scan_shape _ _ _ _ ?_
  intro d y
  refine foldlM_except_exists _ ?_ _ d
  intro d x
  rw [compareMultiplePixels_ok _ _ .multiply (255 * 3 : ℚ) (hchan x y)]
  exact ⟨_, rfl⟩

/-- Claim C9 — Block-similarity offset folding terminates: for positive block
dimensions, out-of-range offsets are folded by the negative-safe modulo at
most once (fuel 2 always suffices, whatever extra fuel is supplied), the
single scan pass then runs to completion, and the produced buffer has the
main image's dimensions. -/
theorem block_similarity_offsets_terminate (main block : Picture)
    (hw : 0 < block.width) (hh : 0 < block.height)
    (hlen : block.data.length = block.width * block.height * 4)
    (offsetX offsetY : ℤ) :
    ∃ pic : Picture, pic.width = main.width ∧ pic.height = main.height ∧
      ∀ fuel : ℕ,
        createBlockSimilarityMaskFuel (fuel + 2) main block offsetX offsetY =
          some (.ok pic) := by
  have hbw : (0 : ℤ) < block.width := by exact_mod_cast hw
  have hbh : (0 : ℤ) < block.height := by exact_mod_cast hh
  by_cases hguard : offsetX < 0 ∨ offsetX > (block.width : ℤ) ∨
      offsetY < 0 ∨ offsetY > (block.height : ℤ)
  · obtain ⟨d, hd⟩ := blockSimilarityScan_ok main block hlen
      (((block.width : ℤ) + offsetX.tmod block.width).tmod block.width)
      (((block.height : ℤ) + offsetY.tmod block.height).tmod block.height)
    refine ⟨⟨main.width, main.height, d⟩, rfl, rfl, fun fuel => ?_⟩
    show createBlockSimilarityMaskFuel ((fuel + 1) + 1) main block
      offsetX offsetY = _
    rw [createBlockSimilarityMaskFuel]
    rw [if_pos hguard]
    show createBlockSimilarityMaskFuel (fuel + 1) main block _ _ = _
    rw [createBlockSimilarityMaskFuel]
    rw [if_neg ?_, hd]
    have hX0 : -(block.width : ℤ) < offsetX.tmod block.width :=
      tmod_lower offsetX _ hbw
    have hX1 : 0 ≤ ((block.width : ℤ) + offsetX.tmod block.width).tmod
        block.width :=
      Int.tmod_nonneg _ (by omega)
    have hX2 : ((block.width : ℤ) + offsetX.tmod block.width).tmod
        block.width < block.width :=
      Int.tmod_lt_of_pos _ hbw
    have hY0 : -(block.height : ℤ) < offsetY.tmod block.height :=
      tmod_lower offsetY _ hbh
    have hY1 : 0 ≤ ((block.height : ℤ) + offsetY.tmod block.height).tmod
        block.height :=
      Int.tmod_nonneg _ (by omega)
    have hY2 : ((block.height : ℤ) + offsetY.tmod block.height).tmod
        block.height < block.height :=
      Int.tmod_lt_of_pos _ hbh
    omega
  · obtain ⟨d, hd⟩ := blockSimilarityScan_ok main block hlen offsetX offsetY
    refine ⟨⟨main.width, main.height, d⟩, rfl, rfl, fun fuel => ?_⟩
    show createBlockSimilarityMaskFuel ((fuel + 1) + 1) main block
      offsetX offsetY = _
    rw [createBlockSimilarityMaskFuel]
    rw [if_neg hguard, hd]

/-- Witness for C9: a 2×2 main image, a 1×1 block and offsets `(-5, 7)` that
both need folding. -/
theorem block_similarity_offsets_terminate_witness :
    ∃ pic : Picture,
      pic.width = (⟨2, 2, List.replicate 16 0⟩ : Picture).width ∧
      pic.height = (⟨2, 2, List.replicate 16 0⟩ : Picture).height ∧
      ∀ fuel : ℕ,
        createBlockSimilarityMaskFuel (fuel + 2) ⟨2, 2, List.replicate 16 0⟩
          ⟨1, 1, [3, 5, 7, 9]⟩ (-5) 7 = some (.ok pic) :=
  block_similarity_offsets_terminate ⟨2, 2, List.replicate 16 0⟩
    ⟨1, 1, [3, 5, 7, 9]⟩ (by decide) (by decide) (by decide) (-5) 7
